import Mathlib

/-!
Verification of the multi-agent orchestration core of
`src/ui/multi_agent_local.py` (round-robin turn scheduler, approval gate,
artifact extraction and publish step).

The Python source is shallowly embedded below:

* `Message` mirrors the `@dataclass Message` (role, name, content).
* `should_terminate`, `product_owner_ready`, `extract_html` are direct
  translations of the functions of the same names.
* The regex `r"```html\s*(.*?)```"` (DOTALL, IGNORECASE) used by
  `extract_html` together with `re.search` is embedded as an explicit
  leftmost-match scanner over character lists (`searchHtml`): a match at a
  position consumes a literal triple-backtick fence, a case-insensitive
  `html` tag, a maximal run of whitespace (`\s*` is greedy and whitespace
  never overlaps the closing fence), then the shortest run of arbitrary
  characters (`(.*?)` is lazy) up to the next triple-backtick fence.
  `\s` is modelled by the six ASCII whitespace characters.
* `agentTurn` / `loopIter` / `runLoop` embed one agent turn, one iteration
  of the `while round_idx < MAX_ROUNDS` loop, and the fuelled loop itself.
  The external completion service (`client.messages.create`) is an opaque
  oracle `complete : String → List OutMessage → String` (persona name
  standing for its fixed system prompt, outbound messages, returned text);
  the human input stream is an oracle `inputs : Nat → String` indexed by
  how many prompts have been answered.  File writes and git pushes are
  recorded as `Effect`s rather than performed.
-/

/-- The backtick character, written by code point. -/
def btick : Char := Char.ofNat 96

/-- The two provider roles of a turn: `"user"` or `"assistant"`. -/
inductive Role where
  | user
  | assistant
deriving DecidableEq

/-- The `Message` dataclass: role, speaker name (agent name or `"User"`),
content. -/
structure Message where
  role : Role
  name : String
  content : String
deriving DecidableEq

/-- Substring scan on character lists: does `needle` occur contiguously in
the haystack? -/
def containsSub : List Char → List Char → Bool
  | needle, [] => needle.isEmpty
  | needle, c :: cs => needle.isPrefixOf (c :: cs) || containsSub needle cs

/-- The Python `needle in haystack` substring test on strings. -/
def containsSubstr (needle haystack : String) : Bool :=
  containsSub needle.data haystack.data

/-- `AGENT_ORDER = ["BusinessAnalyst", "SoftwareEngineer", "ProductOwner"]`. -/
def AGENT_ORDER : List String := ["BusinessAnalyst", "SoftwareEngineer", "ProductOwner"]

/-- `MAX_ROUNDS = 20`, the safety cap on agentic loops. -/
def MAX_ROUNDS : Nat := 20

/-- Python whitespace — the default set of `str.strip()` and the regex
class `\s` — restricted to ASCII: space, tab, newline, carriage return,
vertical tab, form feed. -/
def isSpaceChar (c : Char) : Bool :=
  c == ' ' || c == '\t' || c == '\n' || c == '\r' ||
    c == Char.ofNat 11 || c == Char.ofNat 12

/-- Python `str.upper()` (ASCII case map). -/
def pyUpper (s : String) : String :=
  String.mk (s.data.map Char.toUpper)

/-- Python `str.strip()`: drop leading and trailing whitespace. -/
def pyStrip (s : String) : String :=
  String.mk (((s.data.dropWhile isSpaceChar).reverse.dropWhile isSpaceChar).reverse)

/-- `should_terminate`: scan the history backward; at the most recent
message named `"User"` return whether its content, stripped and
upper-cased, equals `"APPROVED"`; `False` if there is no user message. -/
def should_terminate (history : List Message) : Bool :=
  match history.reverse.find? (fun m => m.name == "User") with
  | some m => pyUpper (pyStrip m.content) == "APPROVED"
  | none => false

/-- `product_owner_ready`: scan the history backward; at the most recent
message named `"ProductOwner"` return whether its upper-cased content
contains the substring `"READY FOR USER APPROVAL"`; `False` if none. -/
def product_owner_ready (history : List Message) : Bool :=
  match history.reverse.find? (fun m => m.name == "ProductOwner") with
  | some m => containsSubstr "READY FOR USER APPROVAL" (pyUpper m.content)
  | none => false

/-- The literal fence delimiter of the regex: three backticks. -/
def fenceL : List Char := [btick, btick, btick]

/-- Case-insensitive "starts with" used for the literal `html` tag under
`re.IGNORECASE`. -/
def startsWithCI : List Char → List Char → Bool
  | [], _ => true
  | _ :: _, [] => false
  | p :: ps, c :: cs => (p.toLower == c.toLower) && startsWithCI ps cs

/-- The lazy group `(.*?)` followed by the closing fence: the characters up
to the first occurrence of three backticks, or `none` if no closing fence
follows. -/
def takeUntilFence : List Char → Option (List Char)
  | [] => none
  | c :: cs =>
    if fenceL.isPrefixOf (c :: cs) then some []
    else
      match takeUntilFence cs with
      | some rest => some (c :: rest)
      | none => none

/-- A match of `` r"```html\s*(.*?)```" `` anchored at the head of `l`,
returning the group: fence, case-insensitive `html`, maximal whitespace
run, then the lazy group up to the next fence. -/
def matchHtmlAt (l : List Char) : Option (List Char) :=
  if fenceL.isPrefixOf l then
    let afterFence := l.drop 3
    if startsWithCI ['h', 't', 'm', 'l'] afterFence then
      let afterTag := afterFence.drop 4
      takeUntilFence (afterTag.dropWhile isSpaceChar)
    else none
  else none

/-- `re.search` with that pattern: the match at the leftmost position where
one exists. -/
def searchHtml : List Char → Option (List Char)
  | [] => none
  | c :: cs =>
    match matchHtmlAt (c :: cs) with
    | some g => some g
    | none => searchHtml cs

/-- The `for msg in reversed(history)` body of `extract_html`, applied to an
already reversed list: first message with a regex match wins, and its
group is returned stripped. -/
def extractFromList : List Message → Option String
  | [] => none
  | m :: rest =>
    match searchHtml m.content.data with
    | some g => some (pyStrip (String.mk g))
    | none => extractFromList rest

/-- `extract_html`: scan the history from the newest message backward and
return the stripped first regex group of the first message that matches
`` r"```html\s*(.*?)```" ``; `None` when no message matches. -/
def extract_html (history : List Message) : Option String :=
  extractFromList history.reverse

/-- A message as sent to the completion service: provider role plus
label-prefixed content. -/
structure OutMessage where
  role : Role
  content : String
deriving DecidableEq

/-- The speaker label prepended in `ClaudeAgent.respond`:
`f"[{msg.name}]: " if msg.name != "User" else "[User]: "`. -/
def labelFor (name : String) : String :=
  if name != "User" then "[" ++ name ++ "]: " else "[User]: "

/-- Projection of one history message into a provider message. -/
def projectMessage (m : Message) : OutMessage :=
  { role := m.role, content := labelFor m.name ++ m.content }

/-- The outbound message sequence built in `ClaudeAgent.respond`: the
projected history, plus — when the list is non-empty and its last message
has the assistant role — one synthetic user-role message
`"[System]: Please continue as <name>."`. -/
def buildMessages (name : String) (history : List Message) : List OutMessage :=
  let messages := history.map projectMessage
  match messages.getLast? with
  | some last =>
    if last.role == Role.assistant then
      messages ++ [{ role := Role.user,
                     content := "[System]: Please continue as " ++ name ++ "." }]
    else messages
  | none => messages

/-- `ClaudeAgent.respond`: one call to the completion oracle with the
persona (named) and the outbound messages; the returned text is the
agent turn text. -/
def agentRespond (complete : String → List OutMessage → String)
    (name : String) (history : List Message) : String :=
  complete name (buildMessages name history)

/-- The mutable locals of the loop in `run_multi_agent_chat`, plus a counter of
consumed human inputs. -/
structure LoopState where
  history : List Message
  round_idx : Nat
  agent_idx : Nat
  waiting_for_approval : Bool
  nInputs : Nat
deriving DecidableEq

/-- Observable side effects of the post-approval steps. -/
inductive Effect where
  | saveHtml (content : String)
  | pushToGitHub
deriving DecidableEq

/-- How a session ends: the `break` after APPROVED, or the `else` clause of
the loop after the round cap. -/
inductive Outcome where
  | completed
  | maxRoundsExceeded
deriving DecidableEq

/-- Result of one iteration of the `while` body: continue with a new state,
or break out with effects, outcome and final history. -/
inductive IterResult where
  | cont (s : LoopState)
  | done (effects : List Effect) (outcome : Outcome) (finalHistory : List Message)
deriving DecidableEq

/-- A human turn as appended to the history. -/
def userMessage (content : String) : Message :=
  { role := Role.user, name := "User", content := content }

/-- `AGENT_ORDER[agent_idx % len(AGENT_ORDER)]`. -/
def pickAgent (agent_idx : Nat) : String :=
  AGENT_ORDER.getD (agent_idx % AGENT_ORDER.length) ""

/-- `AGENT_ORDER.index("ProductOwner")`. -/
def productOwnerIndex : Nat := AGENT_ORDER.indexOf "ProductOwner"

/-- The effects of the `if should_terminate(history)` branch: on a truthy
extraction result, save the HTML and push; a `None` or empty extraction
only prints a notice (the Python `if html:` test is falsy on `""`). -/
def publishEffects (history : List Message) : List Effect :=
  match extract_html history with
  | some html =>
    if html.isEmpty then [] else [Effect.saveHtml html, Effect.pushToGitHub]
  | none => []

/-- The agent-turn tail of the loop body: pick the agent in rotation, get
its response, append it, then either freeze for approval (ProductOwner
just signalled readiness) or advance `agent_idx` and `round_idx`. -/
def agentTurn (complete : String → List OutMessage → String)
    (s : LoopState) : LoopState :=
  let name := pickAgent s.agent_idx
  let response := agentRespond complete name s.history
  let h := s.history ++ [{ role := Role.assistant, name := name, content := response }]
  if name == "ProductOwner" && product_owner_ready h then
    { s with history := h, waiting_for_approval := true }
  else
    { s with history := h, agent_idx := s.agent_idx + 1, round_idx := s.round_idx + 1 }

/-- One full iteration of the `while round_idx < MAX_ROUNDS` body.  When
waiting for approval, read and strip one human input, append it, and
either break with the post-approval effects (termination predicate true)
or fall through to an agent turn from the ProductOwner position. -/
def loopIter (complete : String → List OutMessage → String)
    (inputs : Nat → String) (s : LoopState) : IterResult :=
  if s.waiting_for_approval then
    let ui := pyStrip (inputs s.nInputs)
    let h := s.history ++ [userMessage ui]
    if should_terminate h then
      IterResult.done (publishEffects h) Outcome.completed h
    else
      IterResult.cont (agentTurn complete
        { s with history := h, nInputs := s.nInputs + 1,
                 waiting_for_approval := false, agent_idx := productOwnerIndex })
  else
    IterResult.cont (agentTurn complete s)

/-- A finished run (effects, outcome, final history) or exhausted fuel. -/
inductive RunResult where
  | finished (effects : List Effect) (outcome : Outcome) (finalHistory : List Message)
  | outOfFuel (s : LoopState)
deriving DecidableEq

/-- The `while round_idx < MAX_ROUNDS: ... else: ...` loop, fuelled.  The
`else` clause (cap reached with the condition false) yields the
`maxRoundsExceeded` outcome with no effects. -/
def runLoop (complete : String → List OutMessage → String)
    (inputs : Nat → String) : Nat → LoopState → RunResult
  | 0, s => RunResult.outOfFuel s
  | fuel + 1, s =>
    if s.round_idx < MAX_ROUNDS then
      match loopIter complete inputs s with
      | IterResult.cont s1 => runLoop complete inputs fuel s1
      | IterResult.done effects outcome h => RunResult.finished effects outcome h
    else
      RunResult.finished [] Outcome.maxRoundsExceeded s.history

/-- The loop locals as initialized in `run_multi_agent_chat`. -/
def initState (user_request : String) : LoopState :=
  { history := [userMessage user_request], round_idx := 0, agent_idx := 0,
    waiting_for_approval := false, nInputs := 0 }

/-- `run_multi_agent_chat`: the client is built with
`os.getenv("ANTHROPIC_API_KEY", "")` — an absent environment variable
becomes the empty-string key — and the loop runs; `complete` here takes
the api key first. -/
def run_multi_agent_chat (env : Option String)
    (complete : String → String → List OutMessage → String)
    (inputs : Nat → String) (user_request : String) (fuel : Nat) : RunResult :=
  let apiKey := env.getD ""
  runLoop (complete apiKey) inputs fuel (initState user_request)

/-- Effects of a run (none when the fuel ran out mid-loop). -/
def RunResult.effects : RunResult → List Effect
  | RunResult.finished effects _ _ => effects
  | RunResult.outOfFuel _ => []

/-- Outcome of a run, when it finished. -/
def RunResult.outcome : RunResult → Option Outcome
  | RunResult.finished _ outcome _ => some outcome
  | RunResult.outOfFuel _ => none

/-- The conversation history at the end of a run. -/
def RunResult.finalHistory : RunResult → List Message
  | RunResult.finished _ _ h => h
  | RunResult.outOfFuel s => s.history

/-- Number of agent-authored (assistant-role) turns in a history. -/
def agentTurnCount (history : List Message) : Nat :=
  (history.filter (fun m => m.role == Role.assistant)).length

/-- Reachability between loop states: zero or more loop iterations, each
taken with the `while` condition still true. -/
inductive Reaches (complete : String → List OutMessage → String)
    (inputs : Nat → String) (start : LoopState) : LoopState → Prop
  | refl : Reaches complete inputs start start
  | step {s1 s2 : LoopState} : Reaches complete inputs start s1 →
      s1.round_idx < MAX_ROUNDS →
      loopIter complete inputs s1 = IterResult.cont s2 →
      Reaches complete inputs start s2

/-- Appending a user turn makes it the turn `should_terminate` inspects. -/
theorem should_terminate_append (h : List Message) (c : String) :
    should_terminate (h ++ [userMessage c]) = (pyUpper (pyStrip c) == "APPROVED") := by
  simp [should_terminate, List.reverse_append, userMessage, List.find?]

/-- Appending a ProductOwner turn makes it the turn `product_owner_ready`
inspects: the predicate is the substring test on that turn alone. -/
theorem product_owner_ready_append (h : List Message) (c : String) :
    product_owner_ready (h ++ [(⟨Role.assistant, "ProductOwner", c⟩ : Message)]) =
      containsSubstr "READY FOR USER APPROVAL" (pyUpper c) := by
  simp [product_owner_ready, List.reverse_append, List.find?]

/-- When the fresh ProductOwner turn signals readiness, the agent turn
freezes the rotation and raises the approval flag. -/
theorem agentTurn_po_ready (complete : String → List OutMessage → String)
    (s : LoopState)
    (hpo : pickAgent s.agent_idx = "ProductOwner")
    (hready : containsSubstr "READY FOR USER APPROVAL"
        (pyUpper (agentRespond complete "ProductOwner" s.history)) = true) :
    agentTurn complete s =
      { s with
        history := s.history ++
          [⟨Role.assistant, "ProductOwner", agentRespond complete "ProductOwner" s.history⟩],
        waiting_for_approval := true } := by
  unfold agentTurn
  rw [hpo]
  rw [if_pos]
  rw [product_owner_ready_append, hready]
  simp

/-- C1: when the scheduler is at the ProductOwner position and the turn just
produced has content whose upper-casing contains "READY FOR USER
APPROVAL", the loop iteration keeps rotating into that agent turn, the
turn raises the approval flag (phase AwaitingApproval), and both the
current agent index and the round counter are left unchanged; the
readiness predicate on the new history is exactly the substring test on
that most recent ProductOwner turn. -/
theorem readiness_transition (complete : String → List OutMessage → String)
    (inputs : Nat → String) (s : LoopState)
    (hw : s.waiting_for_approval = false)
    (hpo : pickAgent s.agent_idx = "ProductOwner")
    (hready : containsSubstr "READY FOR USER APPROVAL"
        (pyUpper (agentRespond complete "ProductOwner" s.history)) = true) :
    loopIter complete inputs s = IterResult.cont (agentTurn complete s)
    ∧ (agentTurn complete s).waiting_for_approval = true
    ∧ (agentTurn complete s).agent_idx = s.agent_idx
    ∧ (agentTurn complete s).round_idx = s.round_idx
    ∧ product_owner_ready (agentTurn complete s).history = true := by
  have hat := agentTurn_po_ready complete s hpo hready
  refine ⟨by simp [loopIter, hw], ?_, ?_, ?_, ?_⟩ <;> rw [hat]
  exact (product_owner_ready_append s.history _).trans hready

def c1Complete : String → List OutMessage → String :=
  fun _ _ => "All requirements met. READY FOR USER APPROVAL."

def c1Inputs : Nat → String := fun _ => ""

def c1State : LoopState :=
  { history := [userMessage "Build a calculator app"], round_idx := 2, agent_idx := 2,
    waiting_for_approval := false, nInputs := 0 }

/-- Witness for C1 at a concrete state and completion oracle. -/
theorem readiness_transition_witness :
    loopIter c1Complete c1Inputs c1State = IterResult.cont (agentTurn c1Complete c1State)
    ∧ (agentTurn c1Complete c1State).waiting_for_approval = true
    ∧ (agentTurn c1Complete c1State).agent_idx = c1State.agent_idx
    ∧ (agentTurn c1Complete c1State).round_idx = c1State.round_idx
    ∧ product_owner_ready (agentTurn c1Complete c1State).history = true :=
  readiness_transition c1Complete c1Inputs c1State rfl (by decide) (by decide)

/-- C2: in the awaiting-approval phase, with `ui` the stripped human input
that gets appended, the termination predicate on the new history is
exactly "trimmed, upper-cased input equals APPROVED"; when it holds the
iteration breaks with the Completed outcome (and the post-approval
effects), and for any other input the iteration re-enters rotation with
the current agent index forced to the ProductOwner position. -/
theorem approval_gate_decision (complete : String → List OutMessage → String)
    (inputs : Nat → String) (s : LoopState) (ui : String)
    (hw : s.waiting_for_approval = true)
    (hui : ui = pyStrip (inputs s.nInputs)) :
    should_terminate (s.history ++ [userMessage ui]) = (pyUpper (pyStrip ui) == "APPROVED")
    ∧ (pyUpper (pyStrip ui) = "APPROVED" →
        loopIter complete inputs s
          = IterResult.done (publishEffects (s.history ++ [userMessage ui]))
              Outcome.completed (s.history ++ [userMessage ui]))
    ∧ (pyUpper (pyStrip ui) ≠ "APPROVED" →
        (loopIter complete inputs s
          = IterResult.cont (agentTurn complete
              { s with history := s.history ++ [userMessage ui],
                       nInputs := s.nInputs + 1,
                       waiting_for_approval := false,
                       agent_idx := productOwnerIndex })
         ∧ pickAgent productOwnerIndex = "ProductOwner")) := by
  subst hui
  refine ⟨should_terminate_append _ _, ?_, ?_⟩
  · intro happ
    simp [loopIter, hw, should_terminate_append, happ]
  · intro hneg
    refine ⟨?_, rfl⟩
    simp [loopIter, hw, should_terminate_append, hneg]

def c2Complete : String → List OutMessage → String := fun _ _ => "continuing"

def c2InputsYes : Nat → String := fun _ => "  APProved "

def c2InputsNo : Nat → String := fun _ => "needs changes"

def c2State : LoopState :=
  { history := [userMessage "req",
      ⟨Role.assistant, "ProductOwner", "READY FOR USER APPROVAL"⟩],
    round_idx := 2, agent_idx := 2, waiting_for_approval := true, nInputs := 0 }

/-- Witness for C2: the accepting input "  APProved " terminates with the
Completed outcome; the rejecting input re-enters rotation at the
ProductOwner position. -/
theorem approval_gate_decision_witness :
    (loopIter c2Complete c2InputsYes c2State
      = IterResult.done
          (publishEffects (c2State.history ++ [userMessage (pyStrip (c2InputsYes 0))]))
          Outcome.completed (c2State.history ++ [userMessage (pyStrip (c2InputsYes 0))]))
    ∧ (loopIter c2Complete c2InputsNo c2State
      = IterResult.cont (agentTurn c2Complete
          { c2State with
              history := c2State.history ++ [userMessage (pyStrip (c2InputsNo 0))],
              nInputs := 1, waiting_for_approval := false,
              agent_idx := productOwnerIndex })) :=
  ⟨(approval_gate_decision c2Complete c2InputsYes c2State _ rfl rfl).2.1 (by decide),
   ((approval_gate_decision c2Complete c2InputsNo c2State _ rfl rfl).2.2 (by decide)).1⟩

/-- C8 (amended): every agent turn appends exactly one turn to the history,
and the round counter increments by exactly one UNLESS the turn was a
ProductOwner turn signalling readiness, in which case it is left
unchanged (the scheduler freezes for approval instead). -/
theorem round_accounting (complete : String → List OutMessage → String)
    (s : LoopState) :
    (agentTurn complete s).history.length = s.history.length + 1
    ∧ (agentTurn complete s).round_idx =
        (if (pickAgent s.agent_idx == "ProductOwner"
              && product_owner_ready (s.history ++
                [⟨Role.assistant, pickAgent s.agent_idx,
                  agentRespond complete (pickAgent s.agent_idx) s.history⟩])) = true
         then s.round_idx else s.round_idx + 1) := by
  rcases Bool.eq_false_or_eq_true
      (pickAgent s.agent_idx == "ProductOwner"
        && product_owner_ready (s.history ++
          [⟨Role.assistant, pickAgent s.agent_idx,
            agentRespond complete (pickAgent s.agent_idx) s.history⟩])) with hb | hb <;>
    simp [agentTurn, hb]

def c8Complete : String → List OutMessage → String :=
  fun name _ => if name == "ProductOwner" then "READY FOR USER APPROVAL" else "ok"

def c8State : LoopState :=
  { history := [userMessage "build"], round_idx := 5, agent_idx := 2,
    waiting_for_approval := false, nInputs := 0 }

/-- Counterexample to C8 as stated: a completed ProductOwner turn that
signals readiness appends a turn to the history but does NOT increment
the round counter. -/
theorem round_accounting_cex :
    (agentTurn c8Complete c8State).history.length = c8State.history.length + 1
    ∧ ¬ (agentTurn c8Complete c8State).round_idx = c8State.round_idx + 1 := by
  constructor
  · decide
  · decide

/-- A history is "clean" when none of its ProductOwner turns carries the
readiness marker. -/
def POClean (h : List Message) : Prop :=
  ∀ m ∈ h, m.name = "ProductOwner" →
    containsSubstr "READY FOR USER APPROVAL" (pyUpper m.content) = false

/-- A completion oracle that never emits the readiness marker when speaking
as the ProductOwner. -/
def NeverReady (complete : String → List OutMessage → String) : Prop :=
  ∀ msgs : List OutMessage,
    containsSubstr "READY FOR USER APPROVAL" (pyUpper (complete "ProductOwner" msgs)) = false

/-- On a clean history the readiness predicate is false. -/
theorem product_owner_ready_eq_false (h : List Message) (hc : POClean h) :
    product_owner_ready h = false := by
  unfold product_owner_ready
  cases hfind : h.reverse.find? (fun m => m.name == "ProductOwner") with
  | none => rfl
  | some m =>
    have hmem : m ∈ h := List.mem_reverse.mp (List.mem_of_find?_eq_some hfind)
    have hname : m.name = "ProductOwner" := by simpa using List.find?_some hfind
    exact hc m hmem hname

/-- Under a never-ready oracle, an agent turn from a clean history advances
the rotation (index and round both increment) and keeps the history
clean. -/
theorem agentTurn_no_ready (complete : String → List OutMessage → String)
    (s : LoopState) (hnr : NeverReady complete) (hc : POClean s.history) :
    agentTurn complete s =
      { s with
        history := s.history ++
          [⟨Role.assistant, pickAgent s.agent_idx,
            agentRespond complete (pickAgent s.agent_idx) s.history⟩],
        agent_idx := s.agent_idx + 1, round_idx := s.round_idx + 1 }
    ∧ POClean (s.history ++
        [⟨Role.assistant, pickAgent s.agent_idx,
          agentRespond complete (pickAgent s.agent_idx) s.history⟩]) := by
  have hc' : POClean (s.history ++
      [⟨Role.assistant, pickAgent s.agent_idx,
        agentRespond complete (pickAgent s.agent_idx) s.history⟩]) := by
    intro m hm hname
    rcases List.mem_append.mp hm with h1 | h2
    · exact hc m h1 hname
    · have hm2 : m = ⟨Role.assistant, pickAgent s.agent_idx,
          agentRespond complete (pickAgent s.agent_idx) s.history⟩ := by
        simpa using h2
      subst hm2
      have hpo : pickAgent s.agent_idx = "ProductOwner" := hname
      rw [agentRespond, hpo]
      exact hnr (buildMessages "ProductOwner" s.history)
  have hready : product_owner_ready (s.history ++
      [⟨Role.assistant, pickAgent s.agent_idx,
        agentRespond complete (pickAgent s.agent_idx) s.history⟩]) = false :=
    product_owner_ready_eq_false _ hc'
  exact ⟨by simp [agentTurn, hready], hc'⟩

/-- Reachable states keep the invariant: not awaiting approval, history
clean. -/
theorem reaches_invariant (complete : String → List OutMessage → String)
    (inputs : Nat → String) (hnr : NeverReady complete)
    {s t : LoopState} (hr : Reaches complete inputs s t)
    (hs : s.waiting_for_approval = false ∧ POClean s.history) :
    t.waiting_for_approval = false ∧ POClean t.history := by
  induction hr with
  | refl => exact hs
  | step hr1 hlt hiter ih =>
    rename_i s1 s2
    obtain ⟨hw, hc⟩ := ih
    obtain ⟨heq, hc'⟩ := agentTurn_no_ready complete s1 hnr hc
    simp only [loopIter, hw, Bool.false_eq_true, if_false, IterResult.cont.injEq] at hiter
    rw [← hiter, heq]
    exact ⟨hw, hc'⟩

/-- The initial history (one user turn) is clean. -/
theorem initState_clean (u : String) : POClean (initState u).history := by
  intro m hm hname
  have hm2 : m = userMessage u := by simpa [initState] using hm
  subst hm2
  have hne : ("User" : String) ≠ "ProductOwner" := by decide
  exact absurd hname hne

/-- C3: with a completion oracle that never produces the readiness
substring on a ProductOwner turn, no state reachable from the initial
state — over any number of loop iterations — is in the awaiting-approval
phase. -/
theorem never_awaiting_approval (complete : String → List OutMessage → String)
    (inputs : Nat → String) (u : String) (hnr : NeverReady complete)
    (t : LoopState) (hr : Reaches complete inputs (initState u) t) :
    t.waiting_for_approval = false :=
  (reaches_invariant complete inputs hnr hr ⟨rfl, initState_clean u⟩).1

def c3Complete : String → List OutMessage → String := fun _ _ => "still working"

def c3Inputs : Nat → String := fun _ => ""

def c3State1 : LoopState := agentTurn c3Complete (initState "req")

/-- Witness for C3 after one concrete loop iteration. -/
theorem never_awaiting_approval_witness : c3State1.waiting_for_approval = false :=
  never_awaiting_approval c3Complete c3Inputs "req"
    (fun _ =>
      (by decide :
        containsSubstr "READY FOR USER APPROVAL" (pyUpper "still working") = false))
    c3State1 (Reaches.step Reaches.refl (by decide) (by decide))

/-- Filtering agent turns distributes over appending one assistant turn. -/
theorem agentTurnCount_append_assistant (h : List Message) (n c : String) :
    agentTurnCount (h ++ [⟨Role.assistant, n, c⟩]) = agentTurnCount h + 1 := by
  simp [agentTurnCount, List.filter_append, List.filter]

/-- Under a never-ready oracle the loop, started in rotation on a clean
history with enough fuel, runs until the cap: it finishes with the
max-rounds outcome, no effects, and one agent turn per remaining round. -/
theorem runLoop_cap_aux (complete : String → List OutMessage → String)
    (inputs : Nat → String) (hnr : NeverReady complete) :
    ∀ fuel : Nat, ∀ s : LoopState, s.waiting_for_approval = false → POClean s.history →
      MAX_ROUNDS - s.round_idx < fuel →
      ∃ h, runLoop complete inputs fuel s
            = RunResult.finished [] Outcome.maxRoundsExceeded h
        ∧ agentTurnCount h = agentTurnCount s.history + (MAX_ROUNDS - s.round_idx) := by
  intro fuel
  induction fuel with
  | zero => intro s _ _ hlt; omega
  | succ fuel ih =>
    intro s hw hc hlt
    by_cases hround : s.round_idx < MAX_ROUNDS
    · obtain ⟨heq, hc'⟩ := agentTurn_no_ready complete s hnr hc
      have hiter : runLoop complete inputs (fuel + 1) s
          = runLoop complete inputs fuel (agentTurn complete s) := by
        simp [runLoop, hround, loopIter, hw]
      have hw' : (agentTurn complete s).waiting_for_approval = false := by
        rw [heq]; exact hw
      have hc2 : POClean (agentTurn complete s).history := by rw [heq]; exact hc'
      have hround' : (agentTurn complete s).round_idx = s.round_idx + 1 := by rw [heq]
      have hhist : (agentTurn complete s).history = s.history ++
          [⟨Role.assistant, pickAgent s.agent_idx,
            agentRespond complete (pickAgent s.agent_idx) s.history⟩] := by rw [heq]
      obtain ⟨h, hrun, hcnt⟩ := ih (agentTurn complete s) hw' hc2 (by omega)
      refine ⟨h, hiter.trans hrun, ?_⟩
      rw [hcnt, hhist, agentTurnCount_append_assistant, hround']
      omega
    · have hstop : runLoop complete inputs (fuel + 1) s
          = RunResult.finished [] Outcome.maxRoundsExceeded s.history := by
        simp [runLoop, hround]
      have hz : MAX_ROUNDS - s.round_idx = 0 := by omega
      exact ⟨s.history, hstop, by rw [hz]; omega⟩


/-- C4: with an oracle whose ProductOwner turns never signal readiness and
enough fuel, the session finishes with the max-rounds outcome, performs
no effect at all (no file write, no push — and the post-approval branch
holding the extraction is never reached), and its final history holds
exactly `MAX_ROUNDS = 20` completed agent turns. -/
theorem round_cap (complete : String → List OutMessage → String)
    (inputs : Nat → String) (u : String) (fuel : Nat)
    (hnr : NeverReady complete) (hfuel : MAX_ROUNDS < fuel) :
    (runLoop complete inputs fuel (initState u)).outcome = some Outcome.maxRoundsExceeded
    ∧ (runLoop complete inputs fuel (initState u)).effects = []
    ∧ agentTurnCount (runLoop complete inputs fuel (initState u)).finalHistory = MAX_ROUNDS
    ∧ MAX_ROUNDS = 20 := by
  obtain ⟨h, hrun, hcnt⟩ := runLoop_cap_aux complete inputs hnr fuel (initState u) rfl
    (initState_clean u) (by simpa [initState] using hfuel)
  have h0 : agentTurnCount (initState u).history = 0 := rfl
  rw [h0] at hcnt
  refine ⟨by rw [hrun]; rfl, by rw [hrun]; rfl, ?_, rfl⟩
  rw [hrun]
  simpa [initState] using hcnt

def c4Complete : String → List OutMessage → String := fun _ _ => "no progress"

def c4Inputs : Nat → String := fun _ => ""

/-- Witness for C4 with a concrete never-ready oracle and fuel 21. -/
theorem round_cap_witness :
    (runLoop c4Complete c4Inputs 21 (initState "req")).outcome
        = some Outcome.maxRoundsExceeded
    ∧ (runLoop c4Complete c4Inputs 21 (initState "req")).effects = []
    ∧ agentTurnCount (runLoop c4Complete c4Inputs 21 (initState "req")).finalHistory
        = MAX_ROUNDS
    ∧ MAX_ROUNDS = 20 :=
  round_cap c4Complete c4Inputs "req" 21
    (fun _ =>
      (by decide :
        containsSubstr "READY FOR USER APPROVAL" (pyUpper "no progress") = false))
    (by decide)

/-- Both branches of an agent turn append exactly the one assistant-role
response message to the shared history. -/
theorem agentTurn_history (complete : String → List OutMessage → String)
    (s : LoopState) :
    (agentTurn complete s).history = s.history ++
      [⟨Role.assistant, pickAgent s.agent_idx,
        agentRespond complete (pickAgent s.agent_idx) s.history⟩] := by
  rcases Bool.eq_false_or_eq_true
      (pickAgent s.agent_idx == "ProductOwner"
        && product_owner_ready (s.history ++
          [⟨Role.assistant, pickAgent s.agent_idx,
            agentRespond complete (pickAgent s.agent_idx) s.history⟩])) with hb | hb <;>
    simp [agentTurn, hb]

/-- C7: when the last history turn is agent-authored (assistant role), the
outbound sequence built for the completion call is the label-projected
history plus one final synthetic human-role message
"[System]: Please continue as <identity>."; every projected message is
prefixed with its speaker label; and an agent turn appends only an
assistant-role message to the shared history, so the synthetic human-role
message never enters it. -/
theorem agent_invoker_projection (complete : String → List OutMessage → String)
    (s : LoopState) (name : String) (history : List Message) (m : Message)
    (hlast : history.getLast? = some m) (hrole : m.role = Role.assistant) :
    buildMessages name history
      = history.map projectMessage
        ++ [⟨Role.user, "[System]: Please continue as " ++ name ++ "."⟩]
    ∧ (buildMessages name history).getLast?
        = some ⟨Role.user, "[System]: Please continue as " ++ name ++ "."⟩
    ∧ (∀ x ∈ history, (projectMessage x).content = "[" ++ x.name ++ "]: " ++ x.content)
    ∧ (∀ x ∈ (agentTurn complete s).history,
        x ∈ s.history ∨ x.role = Role.assistant) := by
  have h1 : buildMessages name history
      = history.map projectMessage
        ++ [⟨Role.user, "[System]: Please continue as " ++ name ++ "."⟩] := by
    simp only [buildMessages]
    rw [List.getLast?_map, hlast]
    simp [projectMessage, hrole]
  refine ⟨h1, ?_, ?_, ?_⟩
  · rw [h1, List.getLast?_concat]
  · intro x _
    simp only [projectMessage, labelFor]
    by_cases hx : x.name = "User"
    · rw [hx]
      rfl
    · simp [hx]
  · intro x hx
    rw [agentTurn_history] at hx
    rcases List.mem_append.mp hx with h2 | h2
    · exact Or.inl h2
    · right
      have hx2 : x = ⟨Role.assistant, pickAgent s.agent_idx,
          agentRespond complete (pickAgent s.agent_idx) s.history⟩ := by simpa using h2
      rw [hx2]

def c7History : List Message :=
  [userMessage "hi", ⟨Role.assistant, "BusinessAnalyst", "the plan"⟩]

def c7Complete : String → List OutMessage → String := fun _ _ => "code"

def c7State : LoopState :=
  { history := c7History, round_idx := 1, agent_idx := 1,
    waiting_for_approval := false, nInputs := 0 }

/-- Witness for C7 on a concrete history ending in an agent turn. -/
theorem agent_invoker_projection_witness :
    buildMessages "SoftwareEngineer" c7History
      = c7History.map projectMessage
        ++ [⟨Role.user, "[System]: Please continue as " ++ "SoftwareEngineer" ++ "."⟩]
    ∧ (buildMessages "SoftwareEngineer" c7History).getLast?
        = some ⟨Role.user, "[System]: Please continue as " ++ "SoftwareEngineer" ++ "."⟩
    ∧ (∀ x ∈ c7History, (projectMessage x).content = "[" ++ x.name ++ "]: " ++ x.content)
    ∧ (∀ x ∈ (agentTurn c7Complete c7State).history,
        x ∈ c7State.history ∨ x.role = Role.assistant) :=
  agent_invoker_projection c7Complete c7State "SoftwareEngineer" c7History
    ⟨Role.assistant, "BusinessAnalyst", "the plan"⟩ rfl rfl

def c9Complete : String → String → List OutMessage → String := fun _ _ _ => "ok"

def c9Inputs : Nat → String := fun _ => ""

/-- Counterexample to C9 as stated: with the credentials environment
variable absent, the session still begins — after one loop iteration the
history already holds a completed agent turn, so "fails at startup, no
agent turn is ever produced" is false on the code, which has no
configuration check at all. -/
theorem credentials_cex :
    agentTurnCount
      (run_multi_agent_chat none c9Complete c9Inputs "req" 1).finalHistory = 1 := by
  decide

/-- C9 (amended): absent credentials are not rejected at startup; the
client key defaults to the empty string, so a run with no credentials in
the environment is identical to a run with explicit empty-string
credentials, and the loop starts unconditionally. -/
theorem credentials_default (complete : String → String → List OutMessage → String)
    (inputs : Nat → String) (u : String) (fuel : Nat) :
    run_multi_agent_chat none complete inputs u fuel
      = run_multi_agent_chat (some "") complete inputs u fuel
    ∧ run_multi_agent_chat none complete inputs u fuel
      = runLoop (complete "") inputs fuel (initState u) :=
  ⟨rfl, rfl⟩

/-- A list none of whose messages matches the pattern extracts nothing. -/
theorem extractFromList_none (l : List Message)
    (h : ∀ m ∈ l, searchHtml m.content.data = none) : extractFromList l = none := by
  induction l with
  | nil => rfl
  | cons m rest ih =>
    have hm := h m (List.mem_cons_self m rest)
    simp only [extractFromList, hm]
    exact ih fun x hx => h x (List.mem_cons_of_mem m hx)

/-- A history none of whose messages matches the pattern extracts
nothing. -/
theorem extract_html_none (h : List Message)
    (hall : ∀ m ∈ h, searchHtml m.content.data = none) : extract_html h = none := by
  unfold extract_html
  exact extractFromList_none _ (fun m hm => hall m (List.mem_reverse.mp hm))

/-- C6: approving when no turn of the history (including the just-appended
approval itself) contains a fenced html block: extraction returns
nothing, the iteration still breaks with the Completed outcome, and the
effect list is empty — no file write and no publish call. -/
theorem extraction_miss_skips_publish (complete : String → List OutMessage → String)
    (inputs : Nat → String) (s : LoopState) (ui : String)
    (hw : s.waiting_for_approval = true)
    (hui : ui = pyStrip (inputs s.nInputs))
    (happ : pyUpper (pyStrip ui) = "APPROVED")
    (hnb : ∀ m ∈ s.history, searchHtml m.content.data = none)
    (hnbu : searchHtml ui.data = none) :
    extract_html (s.history ++ [userMessage ui]) = none
    ∧ loopIter complete inputs s
        = IterResult.done [] Outcome.completed (s.history ++ [userMessage ui]) := by
  subst hui
  have hnone : extract_html
      (s.history ++ [userMessage (pyStrip (inputs s.nInputs))]) = none := by
    apply extract_html_none
    intro m hm
    rcases List.mem_append.mp hm with h1 | h1
    · exact hnb m h1
    · have hm2 : m = userMessage (pyStrip (inputs s.nInputs)) := by simpa using h1
      rw [hm2]
      exact hnbu
  have heff : publishEffects
      (s.history ++ [userMessage (pyStrip (inputs s.nInputs))]) = [] := by
    simp [publishEffects, hnone]
  refine ⟨hnone, ?_⟩
  simp [loopIter, hw, should_terminate_append, happ, heff]

def c6Complete : String → List OutMessage → String := fun _ _ => "t"

def c6Inputs : Nat → String := fun _ => "approved"

def c6State : LoopState :=
  { history := [userMessage "req",
      ⟨Role.assistant, "ProductOwner", "READY FOR USER APPROVAL"⟩],
    round_idx := 3, agent_idx := 2, waiting_for_approval := true, nInputs := 0 }

/-- Witness for C6 on a concrete block-free history. -/
theorem extraction_miss_skips_publish_witness :
    extract_html (c6State.history ++ [userMessage (pyStrip (c6Inputs 0))]) = none
    ∧ loopIter c6Complete c6Inputs c6State
        = IterResult.done [] Outcome.completed
            (c6State.history ++ [userMessage (pyStrip (c6Inputs 0))]) :=
  extraction_miss_skips_publish c6Complete c6Inputs c6State _ rfl rfl (by decide)
    (by decide) (by decide)

/-- Extraction over a concatenation whose first part has no matching
message continues in the second part. -/
theorem extractFromList_append (a b : List Message)
    (ha : ∀ m ∈ a, searchHtml m.content.data = none) :
    extractFromList (a ++ b) = extractFromList b := by
  induction a with
  | nil => rfl
  | cons m rest ih =>
    have hm := ha m (List.mem_cons_self m rest)
    simp only [List.cons_append, extractFromList, hm]
    exact ih fun x hx => ha x (List.mem_cons_of_mem m hx)

/-- C5: when `m` is the most recent turn whose content matches the fenced
html pattern (all turns after it have no match), extraction returns
exactly the stripped group of the match in `m` — turn recency alone decides
which turn wins, and the tag match is part of the case-insensitive scan
in `searchHtml`. -/
theorem extract_last_across_turns (h1 h2 : List Message) (m : Message)
    (hm : (searchHtml m.content.data).isSome = true)
    (h2none : ∀ x ∈ h2, searchHtml x.content.data = none) :
    extract_html (h1 ++ m :: h2)
      = (searchHtml m.content.data).map (fun g => pyStrip (String.mk g)) := by
  obtain ⟨g, hg⟩ := Option.isSome_iff_exists.mp hm
  unfold extract_html
  rw [show (h1 ++ m :: h2).reverse = h2.reverse ++ (m :: h1.reverse) from by simp]
  rw [extractFromList_append _ _ (fun x hx => h2none x (List.mem_reverse.mp hx))]
  simp only [extractFromList, hg]
  rfl

def c5Old : Message := ⟨Role.assistant, "SoftwareEngineer", "```html\n<p>old</p>\n```"⟩

def c5New : Message :=
  ⟨Role.assistant, "SoftwareEngineer", "v2: ```HTML\n<p>new</p>\n``` done"⟩

def c5Last : Message := ⟨Role.assistant, "ProductOwner", "READY FOR USER APPROVAL"⟩

/-- Witness for C5: two blocks across turns, the later (upper-case tagged)
one wins; the newest turn carries no block. -/
theorem extract_last_across_turns_witness :
    extract_html ([userMessage "req", c5Old] ++ c5New :: [c5Last]) = some "<p>new</p>" :=
  (extract_last_across_turns [userMessage "req", c5Old] [c5Last] c5New (by decide)
    (by decide)).trans (by decide)

/-- `re.search` leftmost semantics: no match can start inside a
backtick-free prefix, so the scan continues past it. -/
theorem searchHtml_append_no_btick (l1 l2 : List Char)
    (h : ∀ c ∈ l1, c ≠ btick) :
    searchHtml (l1 ++ l2) = searchHtml l2 := by
  induction l1 with
  | nil => rfl
  | cons c cs ih =>
    have hc : (btick == c) = false :=
      beq_eq_false_iff_ne.mpr (Ne.symm (h c (List.mem_cons_self c cs)))
    have hpref : fenceL.isPrefixOf (c :: (cs ++ l2)) = false := by
      simp [fenceL, List.isPrefixOf, hc]
    have hmatch : matchHtmlAt (c :: (cs ++ l2)) = none := by
      simp [matchHtmlAt, hpref]
    simp only [List.cons_append, searchHtml, List.append_eq, hmatch]
    exact ih fun x hx => h x (List.mem_cons_of_mem c hx)

/-- The lazy group stops at the first closing fence: over a backtick-free
body it returns exactly that body. -/
theorem takeUntilFence_append (l1 r : List Char) (h : ∀ c ∈ l1, c ≠ btick) :
    takeUntilFence (l1 ++ btick :: btick :: btick :: r) = some l1 := by
  induction l1 with
  | nil =>
    have hpref : fenceL.isPrefixOf (btick :: btick :: btick :: r) = true := by
      simp [fenceL, List.isPrefixOf]
    simp [takeUntilFence, hpref]
  | cons c cs ih =>
    have hc : (btick == c) = false :=
      beq_eq_false_iff_ne.mpr (Ne.symm (h c (List.mem_cons_self c cs)))
    have hpref : fenceL.isPrefixOf
        (c :: (cs ++ btick :: btick :: btick :: r)) = false := by
      simp [fenceL, List.isPrefixOf, hc]
    have ih2 := ih fun x hx => h x (List.mem_cons_of_mem c hx)
    simp [takeUntilFence, hpref, ih2]

/-- A list whose own `dropWhile` is trivial stays trivial when a
non-whitespace tail is appended. -/
theorem dropWhile_append_no_lead (b1 r : List Char)
    (hb : b1.dropWhile isSpaceChar = b1) :
    (b1 ++ btick :: r).dropWhile isSpaceChar = b1 ++ btick :: r := by
  cases b1 with
  | nil =>
    have : isSpaceChar btick = false := by decide
    simp [List.dropWhile_cons, this]
  | cons a as =>
    have ha : isSpaceChar a = false := by
      rcases Bool.eq_false_or_eq_true (isSpaceChar a) with hfa | hfa
      · exfalso
        rw [List.dropWhile_cons, if_pos hfa] at hb
        have hlen := congrArg List.length hb
        have hle := (List.dropWhile_sublist (l := as) isSpaceChar).length_le
        simp at hlen
        omega
      · exact hfa
    simp [List.dropWhile_cons, ha]

/-- A match anchored at a fenced html block whose body is backtick-free and
has no leading whitespace returns exactly that body. -/
theorem matchHtmlAt_block (b1 r : List Char)
    (hnb : ∀ c ∈ b1, c ≠ btick) (hws : b1.dropWhile isSpaceChar = b1) :
    matchHtmlAt (btick :: btick :: btick :: 'h' :: 't' :: 'm' :: 'l' :: '\n' ::
        (b1 ++ btick :: btick :: btick :: r)) = some b1 := by
  have hpref : fenceL.isPrefixOf (btick :: btick :: btick :: 'h' :: 't' :: 'm' ::
      'l' :: '\n' :: (b1 ++ btick :: btick :: btick :: r)) = true := by
    simp [fenceL, List.isPrefixOf]
  have hnl : isSpaceChar '\n' = true := by decide
  simp only [matchHtmlAt, hpref, if_true, List.drop_succ_cons, List.drop_zero,
    startsWithCI, beq_self_eq_true, Bool.true_and, List.dropWhile_cons, hnl]
  rw [dropWhile_append_no_lead b1 _ hws]
  exact takeUntilFence_append b1 r hnb

/-- Extraction after appending one turn: that newest turn is inspected
first. -/
theorem extract_html_concat (h : List Message) (m : Message) :
    extract_html (h ++ [m]) =
      match searchHtml m.content.data with
      | some g => some (pyStrip (String.mk g))
      | none => extract_html h := by
  unfold extract_html
  simp [List.reverse_append, extractFromList]

/-- C10: within the most recent turn containing fenced html blocks, the
FIRST block in the turn (the leftmost match) wins even though a second
block follows later in the same turn, and the returned content is the
whitespace-stripped block body. -/
theorem within_turn_first_block (h : List Message) (nm : String)
    (pre b1 mid b2 : List Char)
    (hpre : ∀ c ∈ pre, c ≠ btick) (hb1 : ∀ c ∈ b1, c ≠ btick)
    (hws : b1.dropWhile isSpaceChar = b1) :
    extract_html (h ++
      [⟨Role.assistant, nm, String.mk (pre ++
        btick :: btick :: btick :: 'h' :: 't' :: 'm' :: 'l' :: '\n' ::
        (b1 ++ btick :: btick :: btick ::
          (mid ++ btick :: btick :: btick :: 'h' :: 't' :: 'm' :: 'l' :: '\n' ::
            (b2 ++ btick :: btick :: btick :: []))))⟩])
      = some (pyStrip (String.mk b1)) := by
  have hm := matchHtmlAt_block b1
    (mid ++ btick :: btick :: btick :: 'h' :: 't' :: 'm' :: 'l' :: '\n' ::
      (b2 ++ btick :: btick :: btick :: [])) hb1 hws
  have hsearch : searchHtml (String.mk (pre ++
      btick :: btick :: btick :: 'h' :: 't' :: 'm' :: 'l' :: '\n' ::
      (b1 ++ btick :: btick :: btick ::
        (mid ++ btick :: btick :: btick :: 'h' :: 't' :: 'm' :: 'l' :: '\n' ::
          (b2 ++ btick :: btick :: btick :: []))))).data = some b1 := by
    show searchHtml (pre ++
      btick :: btick :: btick :: 'h' :: 't' :: 'm' :: 'l' :: '\n' ::
      (b1 ++ btick :: btick :: btick ::
        (mid ++ btick :: btick :: btick :: 'h' :: 't' :: 'm' :: 'l' :: '\n' ::
          (b2 ++ btick :: btick :: btick :: [])))) = some b1
    rw [searchHtml_append_no_btick pre _ hpre]
    simp [searchHtml, List.append_eq, hm]
  simp only [extract_html_concat, hsearch]

def c10Pre : List Char := "see: ".data

def c10B1 : List Char := "<p>one</p>".data

def c10Mid : List Char := " then ".data

def c10B2 : List Char := "<p>two</p>".data

/-- Witness for C10: a turn with two fenced blocks; the first one is
returned, stripped. -/
theorem within_turn_first_block_witness :
    extract_html ([userMessage "req"] ++
      [⟨Role.assistant, "SoftwareEngineer", String.mk (c10Pre ++
        btick :: btick :: btick :: 'h' :: 't' :: 'm' :: 'l' :: '\n' ::
        (c10B1 ++ btick :: btick :: btick ::
          (c10Mid ++ btick :: btick :: btick :: 'h' :: 't' :: 'm' :: 'l' :: '\n' ::
            (c10B2 ++ btick :: btick :: btick :: []))))⟩])
      = some "<p>one</p>" :=
  (within_turn_first_block [userMessage "req"] "SoftwareEngineer" c10Pre c10B1 c10Mid
    c10B2 (by decide) (by decide) (by decide)).trans (by decide)
